import Mathlib

/-!
Verification development for the bpo-scraper-app repository (`app.py`).

The Python source is shallowly embedded below: pure string manipulation is
translated to Lean functions over `List Char` / `String`, the HTTP fetch
inside `scrape_website` is an oracle parameter (the network is outside the
program), and the external spreadsheet is represented by the column value
list it hands to the program.
-/

/-- Whitespace test of Python `str.strip` (the ASCII whitespace characters). -/
def isPySpace (c : Char) : Bool :=
  c = ' ' || c = '\t' || c = '\n' || c = '\r' || c = '\x0b' || c = '\x0c'

/-- Python `str.strip()`: drop whitespace from both ends of the string. -/
def stripList (l : List Char) : List Char :=
  ((l.dropWhile isPySpace).reverse.dropWhile isPySpace).reverse

/-- Fuelled worker for `replaceList`; the fuel is the length of the input, so
the fuel never runs out on the actual calls. -/
def replaceGo (pat rep : List Char) : Nat → List Char → List Char
  | 0, l => l
  | _ + 1, [] => []
  | fuel + 1, c :: cs =>
    if pat.isPrefixOf (c :: cs) ∧ pat ≠ [] then
      rep ++ replaceGo pat rep fuel (cs.drop (pat.length - 1))
    else
      c :: replaceGo pat rep fuel cs

/-- Python `str.replace(pat, rep)`: rewrite every occurrence of `pat`,
scanning left to right over non-overlapping occurrences. -/
def replaceList (pat rep l : List Char) : List Char :=
  replaceGo pat rep l.length l

/-- The doubled-scheme pattern `https://https://` replaced by `clean_domain`. -/
def pat1 : List Char := "https://https://".data

/-- The doubled-scheme pattern `http://https://` replaced by `clean_domain`. -/
def pat2 : List Char := "http://https://".data

/-- The characters of `https://`. -/
def httpsPre : List Char := "https://".data

/-- The characters of `http://`. -/
def httpPre : List Char := "http://".data

/-- `clean_domain` (app.py lines 64-75): strip the input, return `None` when
empty, globally replace the two doubled-scheme patterns, then prefix
`https://` unless a scheme is already present. -/
def clean_domain (domain : String) : Option String :=
  let d := stripList domain.data
  if d = [] then none
  else
    let d1 := replaceList pat1 httpsPre d
    let d2 := replaceList pat2 httpsPre d1
    if httpPre.isPrefixOf d2 ∨ httpsPre.isPrefixOf d2 then some ⟨d2⟩
    else some ⟨httpsPre ++ d2⟩

/-- The `KEYWORDS` constant (app.py lines 17-38), in source order. -/
def KEYWORDS : List String := [
  "bpo", "business process outsourcing", "customer", "CX", "support", "CSAT",
  "Chief Customer", "Head of Customer", "VP of Customer", "Director of Support",
  "Chief Customer Officer", "VP of Support & Service Operations", "Chief Customer Officer (CCO)",
  "Chief Experience Officer (CXO)", "Vice President (VP) of Customer Support", "VP of Customer Service",
  "VP of Customer Experience", "Head of Customer Support", "Head of Customer Service",
  "Head of Customer Experience", "Director of Customer Support", "Director of Customer Service",
  "Director of Customer Experience", "Director of Support Operations", "Director of Customer Care",
  "Head of Support Operations", "VP of Customer Care", "Director of Client Services",
  "Director of Support Strategy", "Director of Procurement", "Head of Procurement",
  "Vice President (VP) of Procurement", "Chief Procurement Officer (CPO)", "Senior Procurement Manager",
  "Director of Sourcing", "Head of Strategic Sourcing", "VP of Strategic Sourcing",
  "Director of Purchasing", "Head of Global Sourcing", "VP of Purchasing",
  "Director of Vendor Management", "Head of Vendor Management", "VP of Vendor Management",
  "Chief Vendor Management Officer", "Director of Supplier Management",
  "Head of Supplier Relationship Management", "VP of Supplier Management", "Senior Vendor Relationship Manager",
  "Director of Partner Management", "CFO (Chief Financial Officer)",
  "VP of Financial Planning & Analysis (FP&A)", "VP of Corporate Finance", "Head of Finance",
  "Head of FP&A", "Head of Corporate Finance", "Director of Finance",
  "Director of Financial Planning & Analysis", "Director of Corporate Finance",
  "Controller / Financial Controller"
]

/-- `MAX_BYTES` (app.py line 39): cap on the fetched page size. -/
def MAX_BYTES : Nat := 300000

/-- Python `str.lower()` (ASCII case folding, which covers every keyword). -/
def lowerString (s : String) : String := ⟨s.data.map Char.toLower⟩

/-- Splitter for the text nodes of a markup string: maximal character runs
lying outside `<`...`>` tag brackets.  The first argument records whether the
scan is currently inside a tag. -/
def textNodes : Bool → List Char → List Char → List (List Char)
  | false, cur, [] => [cur.reverse]
  | true, _, [] => []
  | false, cur, c :: cs =>
    if c = '<' then cur.reverse :: textNodes true [] cs
    else textNodes false (c :: cur) cs
  | true, cur, c :: cs =>
    if c = '>' then textNodes false [] cs
    else textNodes true cur cs

/-- Modelled from the spec: the text extraction performed by the external
BeautifulSoup library (`soup.get_text(separator=" ", strip=True)`, app.py
line 95) on markup containing none of the decomposed elements (script, style,
noscript, nav, footer, header).  The library is not part of the repository,
so its behaviour is taken from the spec: visible text nodes are extracted,
each stripped, and the nonempty ones joined with single spaces. -/
def extract_text (markup : String) : String :=
  ⟨List.intercalate [' ']
    (((textNodes false [] markup.data).map stripList).filter (fun n => !n.isEmpty))⟩

/-- Python's substring containment `pat in l`: some suffix of `l` starts with
`pat`. -/
def containsSub (pat : List Char) : List Char → Bool
  | [] => pat.isEmpty
  | c :: cs => pat.isPrefixOf (c :: cs) || containsSub pat cs

/-- The keyword-matching line of `scrape_website` (app.py line 96):
`sorted(list(set([kw for kw in KEYWORDS if kw.lower() in text])))`, where
`text` is the lower-cased extracted page text and `in` is Python substring
containment.  Python's `set` + `sorted` is rendered as `dedup` + sorting. -/
def found_keywords (markup : String) : List String :=
  List.insertionSort (· ≤ ·)
    (List.dedup (KEYWORDS.filter
      (fun kw => containsSub (lowerString kw).data (lowerString (extract_text markup)).data)))

/-- The classification tail of `scrape_website` (app.py lines 96-100). -/
def classify_markup (markup : String) : String :=
  let found := found_keywords markup
  if found.isEmpty then "NO" else "YES: " ++ String.intercalate ", " found

/-- Outcome of the HTTP fetch in `scrape_website` (app.py lines 83-90),
modelled as an oracle: a successful body, a raised
`requests.exceptions.RequestException` (carrying its type name), or any other
exception (carrying its message). -/
inductive FetchOutcome where
  | ok (markup : String)
  | requestExc (name : String)
  | exc (msg : String)

/-- `scrape_website` (app.py lines 77-104) with the network fetch passed in
as an oracle from URL to outcome. -/
def scrape_website (fetch : String → FetchOutcome) (domain : String) : String :=
  match clean_domain domain with
  | none => "Empty Domain"
  | some url =>
    match fetch url with
    | FetchOutcome.ok markup => classify_markup markup
    | FetchOutcome.requestExc n => "Error: Connection failed (" ++ n ++ ")"
    | FetchOutcome.exc m => "Error: " ++ m

/-- The Start-Scraping loop (app.py lines 146-157): a sequential fold that
appends one verdict per domain to the `results` list. -/
def run_scraping (fetch : String → FetchOutcome) (domains : List String) : List String :=
  domains.foldl (fun results d => results ++ [scrape_website fetch d]) []

/-- The body-accumulation loop of `scrape_website` (app.py lines 86-90):
`html += chunk`, breaking once `len(html) > MAX_BYTES`. -/
def accumulateChunks (html : List Nat) : List (List Nat) → List Nat
  | [] => html
  | c :: cs =>
    if MAX_BYTES < (html ++ c).length then html ++ c
    else accumulateChunks (html ++ c) cs

/-- The fetched body as a function of the stream's chunk sequence. -/
def fetch_body (chunks : List (List Nat)) : List Nat := accumulateChunks [] chunks

/-- `load_domains` (app.py lines 118-125): first-column values with the header
row dropped and blank (whitespace-only) entries filtered out. -/
def load_domains (col : List String) : List String :=
  (col.drop 1).filter (fun d => !(stripList d.data).isEmpty)

/-- `update_sheet` (app.py lines 106-116): no write for an empty result list;
otherwise a single batch write of range `B2:B{n+1}` assigning result `i` to
row `i + 2` of column B.  The returned pair is the range string and the
(row, value) assignments of that one batch call. -/
def update_sheet (results : List String) : Option (String × List (Nat × String)) :=
  if results.isEmpty then none
  else some ("B2:B" ++ toString (results.length + 1),
             results.enum.map (fun p => (p.1 + 2, p.2)))

/-- The 1-indexed sheet row each kept domain came from: the entry at position
`j` of the post-header column list sits in sheet row `j + 2`. -/
def sourceRows (col : List String) : List Nat :=
  (((col.drop 1).enumFrom 2).filter (fun p => !(stripList p.2.data).isEmpty)).map Prod.fst

/-- Modelled from the spec: the state of the Job Dispatcher's worker pool
(spec section 4.4), which is absent from `src/` — the source file only
contains the sequential Start-Scraping loop.  Jobs are (input index, domain)
pairs; `fin` collects (input index, verdict) pairs. -/
structure DState where
  queued : List (Nat × String)
  inflight : List (Nat × String)
  fin : List (Nat × String)

/-- Modelled from the spec: one scheduling step of the Job Dispatcher — a
queued job may launch while fewer than `conc` jobs are in flight, and any
in-flight job may finish (completion order is unconstrained), writing its
verdict into the result collection keyed by input index. -/
inductive DStep (fetch : String → FetchOutcome) (conc : Nat) : DState → DState → Prop where
  | launch (j : Nat × String) (rest infl fin : List (Nat × String)) :
      infl.length < conc →
      DStep fetch conc ⟨j :: rest, infl, fin⟩ ⟨rest, j :: infl, fin⟩
  | finish (pre post : List (Nat × String)) (j : Nat × String)
      (q fin : List (Nat × String)) :
      DStep fetch conc ⟨q, pre ++ j :: post, fin⟩
        ⟨q, pre ++ post, (j.1, scrape_website fetch j.2) :: fin⟩

/-- Initial dispatcher state: all domains queued in input order. -/
def initState (domains : List String) : DState := ⟨domains.enum, [], []⟩

/-- Reachability of a dispatcher state from the initial state. -/
def DReach (fetch : String → FetchOutcome) (conc : Nat) (domains : List String)
    (σ : DState) : Prop :=
  Relation.ReflTransGen (DStep fetch conc) (initState domains) σ

/-- A final dispatcher state: nothing queued, nothing in flight. -/
def isFinal (σ : DState) : Prop := σ.queued = [] ∧ σ.inflight = []

/-- The dispatcher's output: collected verdicts re-sorted into input order. -/
def dispatchOutput (σ : DState) : List String :=
  (List.insertionSort (fun p q : Nat × String => p.1 ≤ q.1) σ.fin).map Prod.snd

/-- The fully processed job list: every input index paired with its verdict. -/
def dispatchTarget (fetch : String → FetchOutcome) (domains : List String) :
    List (Nat × String) :=
  domains.enum.map (fun j => (j.1, scrape_website fetch j.2))

/-- A fetch oracle that always raises a `ConnectionError` request exception. -/
def fetchConn : String → FetchOutcome := fun _ => FetchOutcome.requestExc "ConnectionError"

/-! ## Helper lemmas: strings and lists -/

/-- String append acts as list append on the character data. -/
theorem strData_append (a b : String) : (a ++ b).data = a.data ++ b.data := rfl

/-- Boolean prefix test agrees with the prefix relation. -/
theorem prefixOf_iff (l₁ l₂ : List Char) : l₁.isPrefixOf l₂ = true ↔ l₁ <+: l₂ :=
  List.isPrefixOf_iff_prefix

/-- `containsSub` decides list-infix containment. -/
theorem containsSub_iff (pat l : List Char) : containsSub pat l = true ↔ pat <:+: l := by
  induction l with
  | nil => simp [containsSub]
  | cons c cs ih =>
    simp [containsSub, List.infix_cons_iff, prefixOf_iff, ih]

/-- The head surviving `dropWhile p` does not satisfy `p`. -/
theorem head?_dropWhile_falsifies (p : Char → Bool) (l : List Char) :
    ∀ c, (l.dropWhile p).head? = some c → p c = false := by
  induction l with
  | nil => intro c h; simp at h
  | cons a as ih =>
    intro c h
    rw [List.dropWhile_cons] at h
    by_cases ha : p a = true
    · exact ih c (by simpa [ha] using h)
    · simp at ha
      simp [ha] at h
      exact h ▸ ha

/-- A nonempty suffix has the same last element as the whole list. -/
theorem getLast?_of_suffix {s t : List Char} (h : s <:+ t) {c : Char}
    (hc : s.getLast? = some c) : t.getLast? = some c := by
  obtain ⟨w, rfl⟩ := h
  rw [List.getLast?_append, hc]
  rfl

/-- The first character left by `stripList` is not whitespace. -/
theorem stripList_head? (l : List Char) :
    ∀ c, (stripList l).head? = some c → isPySpace c = false := by
  intro c h
  unfold stripList at h
  rw [List.head?_reverse] at h
  have hsuf : ((l.dropWhile isPySpace).reverse.dropWhile isPySpace) <:+
      (l.dropWhile isPySpace).reverse := List.dropWhile_suffix _
  have h2 : (l.dropWhile isPySpace).reverse.getLast? = some c :=
    getLast?_of_suffix hsuf h
  rw [List.getLast?_reverse] at h2
  exact head?_dropWhile_falsifies isPySpace l c h2

/-- The last character left by `stripList` is not whitespace. -/
theorem stripList_getLast? (l : List Char) :
    ∀ c, (stripList l).getLast? = some c → isPySpace c = false := by
  intro c h
  unfold stripList at h
  rw [List.getLast?_reverse] at h
  exact head?_dropWhile_falsifies isPySpace _ c h

/-- `dropWhile` does nothing when the head does not satisfy the predicate. -/
theorem dropWhile_eq_self_of_head (p : Char → Bool) (l : List Char)
    (h : ∀ c, l.head? = some c → p c = false) : l.dropWhile p = l := by
  cases l with
  | nil => rfl
  | cons a as =>
    rw [List.dropWhile_cons, if_neg]
    simp [h a rfl]

/-- `stripList` does nothing when neither end is whitespace. -/
theorem stripList_eq_self (l : List Char)
    (h1 : ∀ c, l.head? = some c → isPySpace c = false)
    (h2 : ∀ c, l.getLast? = some c → isPySpace c = false) :
    stripList l = l := by
  unfold stripList
  rw [dropWhile_eq_self_of_head isPySpace l h1]
  rw [dropWhile_eq_self_of_head isPySpace l.reverse (by
    intro c hc
    rw [List.head?_reverse] at hc
    exact h2 c hc)]
  exact List.reverse_reverse l

/-! ## Helper lemmas: `replaceList` -/

/-- When the pattern occurs nowhere in the input, replacement is the identity
(whatever the fuel). -/
theorem replaceGo_id_of_no_occ (pat rep : List Char) :
    ∀ fuel l, ¬ pat <:+: l → replaceGo pat rep fuel l = l := by
  intro fuel
  induction fuel with
  | zero => intro l _; rfl
  | succ n ih =>
    intro l hni
    cases l with
    | nil => rfl
    | cons c cs =>
      rw [replaceGo, if_neg, ih cs (fun hin => hni (List.infix_cons hin))]
      rintro ⟨hp, -⟩
      exact hni (((prefixOf_iff _ _).mp hp).isInfix)

/-- When the pattern occurs nowhere in the input, `replaceList` is the
identity. -/
theorem replaceList_id_of_no_occ (pat rep l : List Char) (h : ¬ pat <:+: l) :
    replaceList pat rep l = l :=
  replaceGo_id_of_no_occ pat rep l.length l h

/-- Replacement never empties a nonempty input when the replacement text is
nonempty. -/
theorem replaceGo_ne_nil (pat rep : List Char) (hrep : rep ≠ []) :
    ∀ fuel l, l ≠ [] → replaceGo pat rep fuel l ≠ [] := by
  intro fuel l hl
  cases fuel with
  | zero => exact hl
  | succ n =>
    cases l with
    | nil => exact hl
    | cons c cs =>
      rw [replaceGo]
      split
      · simp [hrep]
      · simp

/-- Replacing by `https://` preserves the property that the last character is
not whitespace. -/
theorem replaceGo_getLast?_nospace (pat : List Char) :
    ∀ fuel l, (∀ c, l.getLast? = some c → isPySpace c = false) →
      ∀ c, (replaceGo pat httpsPre fuel l).getLast? = some c → isPySpace c = false := by
  intro fuel
  induction fuel with
  | zero => intro l hl; exact hl
  | succ n ih =>
    intro l hl c hc
    cases l with
    | nil => simp [replaceGo] at hc
    | cons c0 cs =>
      rw [replaceGo] at hc
      have tail_hyp : ∀ d, cs.getLast? = some d → isPySpace d = false := by
        intro d hd
        refine hl d ?_
        have : ([c0] ++ cs).getLast? = some d := by
          rw [List.getLast?_append, hd]; rfl
        simpa using this
      split at hc
      · rw [List.getLast?_append] at hc
        cases hr : (replaceGo pat httpsPre n (cs.drop (pat.length - 1))).getLast? with
        | none =>
          rw [hr] at hc
          simp at hc
          have hslash : httpsPre.getLast? = some '/' := by decide
          rw [hslash] at hc
          obtain rfl : '/' = c := Option.some.inj hc
          decide
        | some d =>
          rw [hr] at hc
          simp at hc
          have drop_hyp : ∀ e, (cs.drop (pat.length - 1)).getLast? = some e →
              isPySpace e = false := by
            intro e he
            exact tail_hyp e (getLast?_of_suffix (List.drop_suffix _ _) he)
          exact hc ▸ ih (cs.drop (pat.length - 1)) drop_hyp d hr
      · have hc2 : ([c0] ++ replaceGo pat httpsPre n cs).getLast? = some c := by
          simpa using hc
        rw [List.getLast?_append] at hc2
        cases hr : (replaceGo pat httpsPre n cs).getLast? with
        | none =>
          rw [hr] at hc2
          simp at hc2
          have hcs : cs = [] := by
            by_contra hne
            exact replaceGo_ne_nil pat httpsPre (by decide) n cs hne
              (by simpa using hr)
          subst hcs
          refine hl c ?_
          simp [hc2]
        | some d =>
          rw [hr] at hc2
          simp at hc2
          exact hc2 ▸ ih cs tail_hyp d hr

/-- `replaceList` by `https://` preserves a non-whitespace last character. -/
theorem replaceList_getLast?_nospace (pat l : List Char)
    (hl : ∀ c, l.getLast? = some c → isPySpace c = false) :
    ∀ c, (replaceList pat httpsPre l).getLast? = some c → isPySpace c = false :=
  replaceGo_getLast?_nospace pat l.length l hl

/-! ## Helper lemmas: `clean_domain` -/

/-- `clean_domain` yields `none` exactly on whitespace-only input. -/
theorem clean_domain_eq_none_iff (domain : String) :
    clean_domain domain = none ↔ stripList domain.data = [] := by
  unfold clean_domain
  by_cases h : stripList domain.data = []
  · simp [h]
  · simp [h]
    split <;> simp

/-- When the stripped input already carries a scheme and contains neither
doubled-scheme pattern, `clean_domain` returns the stripped input. -/
theorem clean_domain_no_collapse (s : String)
    (hpre : httpPre.isPrefixOf (stripList s.data) = true ∨
      httpsPre.isPrefixOf (stripList s.data) = true)
    (h1 : ¬ pat1 <:+: stripList s.data) (h2 : ¬ pat2 <:+: stripList s.data) :
    clean_domain s = some ⟨stripList s.data⟩ := by
  have hne : stripList s.data ≠ [] := by
    rcases hpre with hp | hp <;>
    · intro hnil
      rw [hnil] at hp
      exact absurd hp (by decide)
  unfold clean_domain
  rw [if_neg hne]
  simp only [replaceList_id_of_no_occ _ _ _ h1, replaceList_id_of_no_occ _ _ _ h2]
  rw [if_pos]
  exact hpre

/-- Shape of any successful `clean_domain` result: it carries a scheme
prefix, and stripping it is the identity. -/
theorem clean_domain_some_inv (s u : String) (h : clean_domain s = some u) :
    (httpPre.isPrefixOf u.data = true ∨ httpsPre.isPrefixOf u.data = true) ∧
    stripList u.data = u.data := by
  unfold clean_domain at h
  by_cases hd : stripList s.data = []
  · simp [hd] at h
  · rw [if_neg hd] at h
    simp only at h
    have hlast : ∀ c, (replaceList pat2 httpsPre
        (replaceList pat1 httpsPre (stripList s.data))).getLast? = some c →
        isPySpace c = false :=
      replaceList_getLast?_nospace _ _
        (replaceList_getLast?_nospace _ _ (stripList_getLast? s.data))
    split at h
    · rename_i hsch
      obtain rfl : (⟨replaceList pat2 httpsPre
          (replaceList pat1 httpsPre (stripList s.data))⟩ : String) = u :=
        Option.some.inj h
      refine ⟨hsch, stripList_eq_self _ ?_ ?_⟩
      · intro c hc
        rcases hsch with hp | hp
        · obtain ⟨t, ht⟩ := (prefixOf_iff _ _).mp hp
          rw [← ht] at hc
          obtain rfl : 'h' = c := by simpa [httpPre] using hc
          decide
        · obtain ⟨t, ht⟩ := (prefixOf_iff _ _).mp hp
          rw [← ht] at hc
          obtain rfl : 'h' = c := by simpa [httpsPre] using hc
          decide
      · exact hlast
    · rename_i hsch
      obtain rfl : (⟨httpsPre ++ replaceList pat2 httpsPre
          (replaceList pat1 httpsPre (stripList s.data))⟩ : String) = u :=
        Option.some.inj h
      constructor
      · right
        exact (prefixOf_iff _ _).mpr (List.prefix_append _ _)
      · refine stripList_eq_self _ ?_ ?_
        · intro c hc
          obtain rfl : 'h' = c := by simpa [httpsPre] using hc
          decide
        · intro c hc
          rw [List.getLast?_append] at hc
          cases hr : (replaceList pat2 httpsPre
              (replaceList pat1 httpsPre (stripList s.data))).getLast? with
          | none =>
            rw [hr] at hc
            simp at hc
            have hslash : httpsPre.getLast? = some '/' := by decide
            rw [hslash] at hc
            obtain rfl : '/' = c := Option.some.inj hc
            decide
          | some d =>
            rw [hr] at hc
            simp at hc
            exact hc ▸ hlast d hr

/-- A `false` result of `containsSub` refutes infix containment. -/
theorem no_occ_of_containsSub_false {pat l : List Char}
    (h : containsSub pat l = false) : ¬ pat <:+: l := by
  intro hin
  rw [(containsSub_iff pat l).mpr hin] at h
  exact absurd h (by decide)

/-! ## Claim C2 -/

/-- C2: the claim says an already-schemed (trimmed) input is returned
unchanged, and in particular that `https://https://example.com` is not
collapsed.  The code collapses it: `clean_domain` applies the doubled-scheme
replacements before the scheme check (app.py lines 69-72), so this trimmed,
`https://`-prefixed input is returned changed. -/
theorem C2_counterexample :
    stripList "https://https://example.com".data = "https://https://example.com".data ∧
    httpsPre.isPrefixOf "https://https://example.com".data = true ∧
    clean_domain "https://https://example.com" = some "https://example.com" ∧
    clean_domain "https://https://example.com" ≠ some "https://https://example.com" := by
  refine ⟨by decide, by decide, by decide, by decide⟩

/-- C2 (amended): an input whose trimmed form starts with `http://` or
`https://` is returned as its trimmed form unchanged, provided the trimmed
form contains no occurrence of `https://https://` or `http://https://`;
inputs containing those two doubled-scheme patterns are rewritten. -/
theorem C2_amended (s : String)
    (hpre : httpPre.isPrefixOf (stripList s.data) = true ∨
      httpsPre.isPrefixOf (stripList s.data) = true)
    (h1 : containsSub pat1 (stripList s.data) = false)
    (h2 : containsSub pat2 (stripList s.data) = false) :
    clean_domain s = some ⟨stripList s.data⟩ :=
  clean_domain_no_collapse s hpre
    (no_occ_of_containsSub_false h1) (no_occ_of_containsSub_false h2)

/-- Witness for C2 (amended) at the input `https://example.com`. -/
theorem C2_witness :
    (httpPre.isPrefixOf (stripList "https://example.com".data) = true ∨
      httpsPre.isPrefixOf (stripList "https://example.com".data) = true) ∧
    containsSub pat1 (stripList "https://example.com".data) = false ∧
    containsSub pat2 (stripList "https://example.com".data) = false ∧
    clean_domain "https://example.com" = some ⟨stripList "https://example.com".data⟩ :=
  ⟨Or.inr (by decide), by decide, by decide,
    C2_amended "https://example.com" (Or.inr (by decide)) (by decide) (by decide)⟩

/-! ## Claim C5 -/

/-- C5: the claim says normalization is idempotent on every non-empty
domain.  It is not: `https://https://https://` is non-empty, normalizes to
`https://https://` (the global replacement rewrites only the first,
non-overlapping occurrence of `https://https://`), and normalizing that
output again yields `https://`, not itself. -/
theorem C5_counterexample :
    ("https://https://https://" : String) ≠ "" ∧
    clean_domain "https://https://https://" = some "https://https://" ∧
    clean_domain "https://https://" ≠ some "https://https://" := by
  refine ⟨by decide, by decide, by decide⟩

/-- C5 (amended): normalization is idempotent on every domain whose
normalized form contains no occurrence of the doubled-scheme patterns
`https://https://` or `http://https://`: normalizing such a normalized URL
yields itself. -/
theorem C5_amended (s u : String) (h : clean_domain s = some u)
    (h1 : containsSub pat1 u.data = false)
    (h2 : containsSub pat2 u.data = false) :
    clean_domain u = some u := by
  obtain ⟨hpre, hstrip⟩ := clean_domain_some_inv s u h
  have := clean_domain_no_collapse u (by rw [hstrip]; exact hpre)
    (by rw [hstrip]; exact no_occ_of_containsSub_false h1)
    (by rw [hstrip]; exact no_occ_of_containsSub_false h2)
  rw [this, hstrip]

/-- Witness for C5 (amended) at the input `example.com`. -/
theorem C5_witness :
    clean_domain "example.com" = some "https://example.com" ∧
    containsSub pat1 "https://example.com".data = false ∧
    containsSub pat2 "https://example.com".data = false ∧
    clean_domain "https://example.com" = some "https://example.com" :=
  ⟨by decide, by decide, by decide,
    C5_amended "example.com" "https://example.com" (by decide) (by decide) (by decide)⟩

/-! ## Claim C10 -/

/-- C10: `clean_domain`'s doubled-scheme collapse is the global (left-to-right,
non-overlapping) substring replacement of exactly `https://https://` and
`http://https://` by `https://`: occurrences are rewritten anywhere in the
string, not only as a prefix, while `http://http://` and `https://http://`
are left untouched — as is any already-schemed input free of the two
patterns. -/
theorem C10_theorem :
    clean_domain "https://a.com/https://https://b" = some "https://a.com/https://b" ∧
    clean_domain "http://https://example.com" = some "https://example.com" ∧
    clean_domain "https://https://example.com" = some "https://example.com" ∧
    clean_domain "http://http://example.com" = some "http://http://example.com" ∧
    clean_domain "https://http://example.com" = some "https://http://example.com" ∧
    ∀ s : String, stripList s.data = s.data →
      (httpPre.isPrefixOf s.data = true ∨ httpsPre.isPrefixOf s.data = true) →
      containsSub pat1 s.data = false → containsSub pat2 s.data = false →
      clean_domain s = some s := by
  refine ⟨by decide, by decide, by decide, by decide, by decide, ?_⟩
  intro s hstrip hpre h1 h2
  have := clean_domain_no_collapse s (by rw [hstrip]; exact hpre)
    (by rw [hstrip]; exact no_occ_of_containsSub_false h1)
    (by rw [hstrip]; exact no_occ_of_containsSub_false h2)
  rw [this, hstrip]

/-- Witness for the universally quantified part of C10 at `https://ok.example`. -/
theorem C10_witness :
    stripList "https://ok.example".data = "https://ok.example".data ∧
    containsSub pat1 "https://ok.example".data = false ∧
    containsSub pat2 "https://ok.example".data = false ∧
    clean_domain "https://ok.example" = some "https://ok.example" :=
  ⟨by decide, by decide, by decide,
    C10_theorem.2.2.2.2.2 "https://ok.example" (by decide) (Or.inr (by decide))
      (by decide) (by decide)⟩

/-! ## Claim C1 -/

/-- C1: the claim says matching is whole-word, so `<p>Flexible CXOffice</p>`
must not match the keyword `cx`.  The code (app.py line 96) uses Python
substring containment, and `cx` does match inside `CXOffice`: the matched
set is exactly the keyword-list entry `CX`. -/
theorem C1_counterexample :
    "CX" ∈ KEYWORDS ∧ lowerString "CX" = "cx" ∧
    found_keywords "<p>Flexible CXOffice</p>" = ["CX"] ∧
    classify_markup "<p>Flexible CXOffice</p>" ≠ "NO" :=
  ⟨by decide, by decide, by decide, by decide⟩

/-- C1 (amended): matching is case-insensitive substring containment (not
whole-word): both `<p>Flexible CXOffice</p>` and `<p>Contact our CX team</p>`
match the keyword `CX` (verdict `YES: CX`), and in general any keyword whose
lower-casing occurs as a substring of the lower-cased extracted text is
matched, with no word-boundary requirement. -/
theorem C1_amended :
    classify_markup "<p>Flexible CXOffice</p>" = "YES: CX" ∧
    classify_markup "<p>Contact our CX team</p>" = "YES: CX" ∧
    ∀ (markup kw : String), kw ∈ KEYWORDS →
      containsSub (lowerString kw).data (lowerString (extract_text markup)).data = true →
      kw ∈ found_keywords markup := by
  refine ⟨by decide, by decide, ?_⟩
  intro markup kw hmem hsub
  unfold found_keywords
  rw [(List.perm_insertionSort _ _).mem_iff, List.mem_dedup, List.mem_filter]
  exact ⟨hmem, hsub⟩

/-- Witness for the universally quantified part of C1 (amended). -/
theorem C1_witness :
    "bpo" ∈ KEYWORDS ∧
    containsSub (lowerString "bpo").data (lowerString (extract_text "<p>bpo</p>")).data = true ∧
    "bpo" ∈ found_keywords "<p>bpo</p>" :=
  ⟨by decide, by decide, C1_amended.2.2 "<p>bpo</p>" "bpo" (by decide) (by decide)⟩

/-! ## Claim C6 -/

/-- C6: for every markup string, the matched keywords are the canonical
keyword-list entries whose lower-casing occurs in the lower-cased extracted
text, deduplicated and sorted; the verdict is `YES: ...` exactly when that
set is nonempty and `NO` otherwise. -/
theorem C6_theorem (markup : String) :
    List.Sorted (· ≤ ·) (found_keywords markup) ∧
    (found_keywords markup).Nodup ∧
    (∀ kw, kw ∈ found_keywords markup ↔ kw ∈ KEYWORDS ∧
      containsSub (lowerString kw).data (lowerString (extract_text markup)).data = true) ∧
    (found_keywords markup = [] → classify_markup markup = "NO") ∧
    (found_keywords markup ≠ [] →
      classify_markup markup = "YES: " ++ String.intercalate ", " (found_keywords markup)) := by
  refine ⟨?_, ?_, ?_, ?_, ?_⟩
  · exact List.sorted_insertionSort _ _
  · exact ((List.perm_insertionSort _ _).nodup_iff).mpr (List.nodup_dedup _)
  · intro kw
    unfold found_keywords
    rw [(List.perm_insertionSort _ _).mem_iff, List.mem_dedup, List.mem_filter]
  · intro h
    unfold classify_markup
    rw [if_pos (List.isEmpty_iff.mpr h)]
  · intro h
    unfold classify_markup
    rw [if_neg (fun he => h (List.isEmpty_iff.mp he))]

/-- Witness for C6 at `<p>Contact our CX team</p>`, whose matched set is
nonempty. -/
theorem C6_witness :
    found_keywords "<p>Contact our CX team</p>" ≠ [] ∧
    classify_markup "<p>Contact our CX team</p>" =
      "YES: " ++ String.intercalate ", " (found_keywords "<p>Contact our CX team</p>") :=
  ⟨by decide, (C6_theorem ("<p>Contact our CX team</p>")).2.2.2.2 (by decide)⟩

/-! ## Claim C3 -/

/-- A string starting with `YES: ` differs from `Empty Domain`. -/
theorem yes_ne_empty (x : String) : ("YES: " ++ x) ≠ "Empty Domain" := by
  intro h
  have h2 : (some 'Y' : Option Char) = some 'E' := congrArg (fun s => s.data.head?) h
  exact absurd h2 (by decide)

/-- A string starting with `Error: ` differs from `Empty Domain`. -/
theorem error_ne_empty (x : String) : ("Error: " ++ x) ≠ "Empty Domain" := by
  intro h
  have h2 : (some 'r' : Option Char) = some 'm' := congrArg (fun s => s.data[1]?) h
  exact absurd h2 (by decide)

/-- The connection-failure message regrouped under the `Error: ` prefix. -/
theorem conn_failed_eq (n : String) :
    "Error: Connection failed (" ++ n ++ ")" =
      "Error: " ++ ("Connection failed (" ++ n ++ ")") := by
  apply String.ext
  have h0 : ("Error: Connection failed (" : String).data =
      "Error: ".data ++ "Connection failed (".data := by decide
  simp only [strData_append, h0, List.append_assoc]
  rfl

/-- C3: `scrape_website` is total (it returns exactly one of the four verdict
string forms, never propagating a failure); `Empty Domain` is returned
exactly on whitespace-only input; a request exception yields the
connection-failed message carrying the exception type name; any other
exception yields the generic error message. -/
theorem C3_theorem (fetch : String → FetchOutcome) (domain : String) :
    (scrape_website fetch domain = "Empty Domain" ∨
      scrape_website fetch domain = "NO" ∨
      (∃ kws : List String, kws ≠ [] ∧
        scrape_website fetch domain = "YES: " ++ String.intercalate ", " kws) ∨
      (∃ detail : String, scrape_website fetch domain = "Error: " ++ detail)) ∧
    (scrape_website fetch domain = "Empty Domain" ↔ stripList domain.data = []) ∧
    (∀ url n, clean_domain domain = some url → fetch url = FetchOutcome.requestExc n →
      scrape_website fetch domain = "Error: Connection failed (" ++ n ++ ")") ∧
    (∀ url m, clean_domain domain = some url → fetch url = FetchOutcome.exc m →
      scrape_website fetch domain = "Error: " ++ m) := by
  cases hcd : clean_domain domain with
  | none =>
    have hstrip := (clean_domain_eq_none_iff domain).mp hcd
    have hs : scrape_website fetch domain = "Empty Domain" := by
      simp only [scrape_website, hcd]
    exact ⟨Or.inl hs, ⟨fun _ => hstrip, fun _ => hs⟩,
      fun url n hu _ => absurd hu (fun h => Option.noConfusion h),
      fun url m hu _ => absurd hu (fun h => Option.noConfusion h)⟩
  | some url =>
    have hstrip : ¬ stripList domain.data = [] := by
      intro he
      rw [(clean_domain_eq_none_iff domain).mpr he] at hcd
      cases hcd
    cases hf : fetch url with
    | ok markup =>
      have hs : scrape_website fetch domain = classify_markup markup := by
        simp only [scrape_website, hcd, hf]
      have hform : classify_markup markup = "NO" ∨
          ((found_keywords markup) ≠ [] ∧ classify_markup markup =
            "YES: " ++ String.intercalate ", " (found_keywords markup)) := by
        unfold classify_markup
        by_cases he : (found_keywords markup).isEmpty
        · exact Or.inl (by rw [if_pos he])
        · exact Or.inr ⟨by simpa [List.isEmpty_iff] using he, by rw [if_neg he]⟩
      refine ⟨?_, ⟨?_, fun hE => absurd hE hstrip⟩, ?_, ?_⟩
      · rcases hform with hno | ⟨hne, hyes⟩
        · exact Or.inr (Or.inl (hs.trans hno))
        · exact Or.inr (Or.inr (Or.inl ⟨found_keywords markup, hne, hs.trans hyes⟩))
      · intro hE
        rw [hs] at hE
        rcases hform with hno | ⟨-, hyes⟩
        · rw [hno] at hE
          exact absurd hE (by decide)
        · rw [hyes] at hE
          exact absurd hE (yes_ne_empty _)
      · intro url' n hu hfn
        obtain rfl : url = url' := Option.some.inj hu
        rw [hf] at hfn
        cases hfn
      · intro url' m hu hfm
        obtain rfl : url = url' := Option.some.inj hu
        rw [hf] at hfm
        cases hfm
    | requestExc n0 =>
      have hs : scrape_website fetch domain =
          "Error: Connection failed (" ++ n0 ++ ")" := by
        simp only [scrape_website, hcd, hf]
      refine ⟨Or.inr (Or.inr (Or.inr ⟨"Connection failed (" ++ n0 ++ ")",
          hs.trans (conn_failed_eq n0)⟩)), ⟨?_, fun hE => absurd hE hstrip⟩, ?_, ?_⟩
      · intro hE
        rw [hs, conn_failed_eq] at hE
        exact absurd hE (error_ne_empty _)
      · intro url' n hu hfn
        obtain rfl : url = url' := Option.some.inj hu
        rw [hf] at hfn
        obtain rfl : n0 = n := by injection hfn with hn
        exact hs
      · intro url' m hu hfm
        obtain rfl : url = url' := Option.some.inj hu
        rw [hf] at hfm
        cases hfm
    | exc m0 =>
      have hs : scrape_website fetch domain = "Error: " ++ m0 := by
        simp only [scrape_website, hcd, hf]
      refine ⟨Or.inr (Or.inr (Or.inr ⟨m0, hs⟩)), ⟨?_, fun hE => absurd hE hstrip⟩, ?_, ?_⟩
      · intro hE
        rw [hs] at hE
        exact absurd hE (error_ne_empty _)
      · intro url' n hu hfn
        obtain rfl : url = url' := Option.some.inj hu
        rw [hf] at hfn
        cases hfn
      · intro url' m hu hfm
        obtain rfl : url = url' := Option.some.inj hu
        rw [hf] at hfm
        obtain rfl : m0 = m := by injection hfm with hm
        exact hs

/-- Witness for C3: a request exception with type name `ConnectionError` on a
concrete domain produces the tagged connection-failure verdict. -/
theorem C3_witness :
    clean_domain "example.com" = some "https://example.com" ∧
    scrape_website (fun _ => FetchOutcome.requestExc "ConnectionError") "example.com" =
      "Error: Connection failed (" ++ "ConnectionError" ++ ")" :=
  ⟨by decide,
    (C3_theorem (fun _ => FetchOutcome.requestExc "ConnectionError") "example.com").2.2.1
      "https://example.com" "ConnectionError" (by decide) rfl⟩

/-! ## Claim C4 -/

/-- The Start-Scraping loop is the map of `scrape_website` over the input. -/
theorem run_scraping_eq_map (fetch : String → FetchOutcome) (domains : List String) :
    run_scraping fetch domains = domains.map (scrape_website fetch) := by
  unfold run_scraping
  suffices h : ∀ acc, domains.foldl (fun r d => r ++ [scrape_website fetch d]) acc =
      acc ++ domains.map (scrape_website fetch) by simpa using h []
  induction domains with
  | nil => intro acc; simp
  | cons d ds ih => intro acc; simp [ih]

/-- C4: the loop's verdict list has the same length as the input domain list,
and the verdict at each index is the verdict computed for the domain at that
index. -/
theorem C4_theorem (fetch : String → FetchOutcome) (domains : List String) :
    (run_scraping fetch domains).length = domains.length ∧
    ∀ i : Nat, (run_scraping fetch domains)[i]? =
      Option.map (scrape_website fetch) domains[i]? := by
  rw [run_scraping_eq_map]
  constructor
  · simp
  · intro i
    simp [List.getElem?_map]

/-! ## Claim C7 -/

/-- The accumulation loop consumes a prefix of the chunk sequence, stopping
only when the accumulated length has exceeded `MAX_BYTES`. -/
theorem accumulateChunks_spec (chunks : List (List Nat)) :
    ∀ html : List Nat, ∃ k, k ≤ chunks.length ∧
      accumulateChunks html chunks = html ++ (chunks.take k).flatten ∧
      (k < chunks.length → MAX_BYTES < (html ++ (chunks.take k).flatten).length) := by
  induction chunks with
  | nil =>
    intro html
    exact ⟨0, Nat.le_refl 0, by simp [accumulateChunks],
      fun h => absurd h (Nat.not_lt_zero 0)⟩
  | cons c cs ih =>
    intro html
    by_cases hb : MAX_BYTES < (html ++ c).length
    · refine ⟨1, Nat.succ_le_succ (Nat.zero_le _), ?_, ?_⟩
      · rw [accumulateChunks, if_pos hb]
        simp
      · intro _
        simpa using hb
    · obtain ⟨k, hk, heq, himp⟩ := ih (html ++ c)
      refine ⟨k + 1, by simp only [List.length_cons]; omega, ?_, ?_⟩
      · rw [accumulateChunks, if_neg hb, heq]
        simp [List.append_assoc]
      · intro hlt
        simp only [List.length_cons] at hlt
        have h2 := himp (by omega)
        simpa [List.append_assoc] using h2

/-- The accumulated length stays within `MAX_BYTES` plus one chunk size. -/
theorem accumulateChunks_length (B : Nat) (chunks : List (List Nat)) :
    ∀ html : List Nat, html.length ≤ MAX_BYTES → (∀ c ∈ chunks, c.length ≤ B) →
      (accumulateChunks html chunks).length ≤ MAX_BYTES + B := by
  induction chunks with
  | nil =>
    intro html h _
    rw [accumulateChunks]
    omega
  | cons c cs ih =>
    intro html h hc
    rw [accumulateChunks]
    by_cases hb : MAX_BYTES < (html ++ c).length
    · rw [if_pos hb]
      have hcB : c.length ≤ B := hc c (by simp)
      simp only [List.length_append]
      omega
    · rw [if_neg hb]
      exact ih (html ++ c) (by simp only [List.length_append] at hb ⊢; omega)
        (fun d hd => hc d (by simp [hd]))

/-- C7: `MAX_BYTES` is 300 KB; the fetched body is always a prefix of the
full streamed page, obtained by consuming chunks only until the accumulated
length first exceeds `MAX_BYTES`; with the source's 8192-byte chunks the
body length is bounded by `MAX_BYTES + 8192`, so content beyond that bound —
in particular any keyword occurring only there — is never seen by the
classifier. -/
theorem C7_theorem (chunks : List (List Nat)) :
    MAX_BYTES = 300000 ∧
    fetch_body chunks <+: chunks.flatten ∧
    (∃ k, k ≤ chunks.length ∧ fetch_body chunks = (chunks.take k).flatten ∧
      (k < chunks.length → MAX_BYTES < ((chunks.take k).flatten).length)) ∧
    ((∀ c ∈ chunks, c.length ≤ 8192) →
      (fetch_body chunks).length ≤ MAX_BYTES + 8192) := by
  obtain ⟨k, hk, heq, himp⟩ := accumulateChunks_spec chunks []
  simp only [List.nil_append] at heq himp
  have hfb : fetch_body chunks = (chunks.take k).flatten := heq
  refine ⟨rfl, ?_, ⟨k, hk, hfb, himp⟩, ?_⟩
  · rw [hfb]
    conv_rhs => rw [← List.take_append_drop k chunks]
    rw [List.flatten_append]
    exact List.prefix_append _ _
  · intro hsize
    exact accumulateChunks_length 8192 chunks [] (by simp [MAX_BYTES]) hsize

/-- Witness for C7's bounded-length part on a one-chunk stream. -/
theorem C7_witness :
    (∀ c ∈ ([[0, 1, 2]] : List (List Nat)), c.length ≤ 8192) ∧
    (fetch_body [[0, 1, 2]]).length ≤ MAX_BYTES + 8192 :=
  ⟨by decide, (C7_theorem [[0, 1, 2]]).2.2.2 (by decide)⟩

/-! ## Claim C8 -/

/-- Adding two to each element of `range n` yields the row block `2..n+1`. -/
theorem map_add_two_range (n : Nat) :
    (List.range n).map (fun i => i + 2) = List.range' 2 n := by
  rw [List.range'_eq_map_range]
  exact List.map_congr_left (fun i _ => Nat.add_comm i 2)

/-- C8: the claim asserts the batch write lands on the rows the domains came
from.  It does not when a blank entry precedes a kept domain: with column
`["Domain", "", "a.com"]` the single kept domain comes from sheet row 3, yet
the single result is written to row 2. -/
theorem C8_counterexample :
    load_domains ["Domain", "", "a.com"] = ["a.com"] ∧
    sourceRows ["Domain", "", "a.com"] = [3] ∧
    update_sheet ["NO"] = some ("B2:B2", [(2, "NO")]) ∧
    [2] ≠ sourceRows ["Domain", "", "a.com"] :=
  ⟨by decide, by decide, by decide, by decide⟩

/-- C8 (amended): `load_domains` returns the first column with the header
skipped and blanks filtered; `update_sheet` performs a single batch write of
range `B2:B{n+1}` assigning result `i` to row `i+2`; and these written rows
coincide with the rows the domains came from exactly when no blank entry
appears after the header (blank rows shift the alignment). -/
theorem C8_amended (col results : List String)
    (hblank : ∀ d ∈ col.drop 1, (!(stripList d.data).isEmpty) = true)
    (hlen : results.length = (load_domains col).length)
    (hne : results ≠ []) :
    load_domains col = col.drop 1 ∧
    ∃ writes, update_sheet results =
        some ("B2:B" ++ toString (results.length + 1), writes) ∧
      writes.map Prod.fst = sourceRows col ∧
      writes.map Prod.snd = results := by
  have hload : load_domains col = col.drop 1 := List.filter_eq_self.mpr hblank
  refine ⟨hload, results.enum.map (fun p => (p.1 + 2, p.2)), ?_, ?_, ?_⟩
  · unfold update_sheet
    rw [if_neg (by simpa [List.isEmpty_iff] using hne)]
  · rw [List.map_map]
    have h1 : (Prod.fst ∘ fun p : Nat × String => (p.1 + 2, p.2)) =
        (fun i => i + 2) ∘ Prod.fst := rfl
    rw [h1, ← List.map_map, List.enum_map_fst, map_add_two_range]
    have hfil : ((col.drop 1).enumFrom 2).filter
        (fun p => !(stripList p.2.data).isEmpty) = (col.drop 1).enumFrom 2 := by
      refine List.filter_eq_self.mpr ?_
      rintro ⟨i, x⟩ hp
      obtain ⟨h2i, hilt, hx⟩ := List.mem_enumFrom hp
      refine hblank x ?_
      rw [hx]
      exact List.getElem_mem _
    unfold sourceRows
    rw [hfil, List.enumFrom_map_fst, hlen, hload]
  · rw [List.map_map]
    have h2 : (Prod.snd ∘ fun p : Nat × String => (p.1 + 2, p.2)) = Prod.snd := rfl
    rw [h2, List.enum_map_snd]

/-- Witness for C8 (amended) on a blank-free column. -/
theorem C8_witness :
    (∀ d ∈ (["Domain", "a.com"] : List String).drop 1,
      (!(stripList d.data).isEmpty) = true) ∧
    (["NO"] : List String).length = (load_domains ["Domain", "a.com"]).length ∧
    (["NO"] : List String) ≠ [] ∧
    (load_domains ["Domain", "a.com"] = ["Domain", "a.com"].drop 1 ∧
      ∃ writes, update_sheet ["NO"] =
          some ("B2:B" ++ toString ((["NO"] : List String).length + 1), writes) ∧
        writes.map Prod.fst = sourceRows ["Domain", "a.com"] ∧
        writes.map Prod.snd = ["NO"]) :=
  ⟨by decide, by decide, by decide,
    C8_amended ["Domain", "a.com"] ["NO"] (by decide) (by decide) (by decide)⟩

/-! ## Claim C9 -/

/-- Invariant: the worker pool never holds more than `conc` in-flight jobs. -/
theorem dreach_inflight_le (fetch : String → FetchOutcome) (conc : Nat)
    (domains : List String) (σ : DState) (h : DReach fetch conc domains σ) :
    σ.inflight.length ≤ conc := by
  induction h with
  | refl => simp [initState]
  | tail _ hstep ih =>
    cases hstep with
    | launch j rest infl fin hlt => simpa using hlt
    | finish pre post j q fin =>
      simp only [List.length_append, List.length_cons] at ih ⊢
      omega

/-- Moving an element from the middle of a concatenation to the head of its
tail is a permutation. -/
theorem perm_shift {α : Type} (A B t : List α) (x : α) :
    List.Perm ((A ++ B) ++ x :: t) ((A ++ x :: B) ++ t) := by
  have h1 : List.Perm ((A ++ B) ++ x :: t) (x :: ((A ++ B) ++ t)) := List.perm_middle
  have h2 : List.Perm ((A ++ x :: B) ++ t) ((x :: (A ++ B)) ++ t) :=
    List.Perm.append_right t List.perm_middle
  exact h1.trans h2.symm

/-- Invariant: the pending jobs (mapped to their eventual verdicts) together
with the collected results are a permutation of the full processed job
list. -/
theorem dreach_perm (fetch : String → FetchOutcome) (conc : Nat)
    (domains : List String) (σ : DState) (h : DReach fetch conc domains σ) :
    List.Perm
      ((σ.queued ++ σ.inflight).map (fun j => (j.1, scrape_website fetch j.2)) ++ σ.fin)
      (dispatchTarget fetch domains) := by
  induction h with
  | refl => simp [initState, dispatchTarget]
  | tail _ hstep ih =>
    refine List.Perm.trans ?_ ih
    cases hstep with
    | launch j rest infl fin hlt =>
      refine List.Perm.append_right _ (List.Perm.map _ ?_)
      exact @List.perm_middle _ j rest infl
    | finish pre post j q fin =>
      simp only [List.map_append, List.map_cons, ← List.append_assoc]
      exact perm_shift _ _ _ _

/-- In a final reachable state the dispatcher's re-sorted output is exactly
the input-ordered verdict list. -/
theorem dreach_final_output (fetch : String → FetchOutcome) (conc : Nat)
    (domains : List String) (σ : DState) (h : DReach fetch conc domains σ)
    (hfin : isFinal σ) :
    dispatchOutput σ = domains.map (scrape_website fetch) := by
  have hperm0 := dreach_perm fetch conc domains σ h
  rw [hfin.1, hfin.2] at hperm0
  simp only [List.nil_append, List.map_nil] at hperm0
  haveI : IsTotal (Nat × String) (fun p q => p.1 ≤ q.1) :=
    ⟨fun a b => Nat.le_total a.1 b.1⟩
  haveI : IsTrans (Nat × String) (fun p q => p.1 ≤ q.1) :=
    ⟨fun a b c h1 h2 => Nat.le_trans h1 h2⟩
  have hsort : List.Sorted (fun p q : Nat × String => p.1 ≤ q.1)
      (List.insertionSort (fun p q : Nat × String => p.1 ≤ q.1) σ.fin) :=
    List.sorted_insertionSort _ _
  have hpermS : List.Perm
      (List.insertionSort (fun p q : Nat × String => p.1 ≤ q.1) σ.fin)
      (dispatchTarget fetch domains) :=
    (List.perm_insertionSort _ _).trans hperm0
  have htargetfst : (dispatchTarget fetch domains).map Prod.fst =
      List.range domains.length := by
    unfold dispatchTarget
    rw [List.map_map]
    have h1 : (Prod.fst ∘ fun j : Nat × String => (j.1, scrape_website fetch j.2)) =
        Prod.fst := rfl
    rw [h1, List.enum_map_fst]
  have htargetPW : List.Pairwise (fun p q : Nat × String => p.1 < q.1)
      (dispatchTarget fetch domains) := by
    have h2 : List.Pairwise (· < ·) ((dispatchTarget fetch domains).map Prod.fst) := by
      rw [htargetfst]
      exact List.pairwise_lt_range _
    rwa [List.pairwise_map] at h2
  have hnodupfst : ((List.insertionSort (fun p q : Nat × String => p.1 ≤ q.1)
      σ.fin).map Prod.fst).Nodup := by
    have h2 : ((dispatchTarget fetch domains).map Prod.fst).Nodup := by
      rw [htargetfst]
      exact List.nodup_range _
    exact ((hpermS.map Prod.fst).nodup_iff).mpr h2
  have hsortPW : List.Pairwise (fun p q : Nat × String => p.1 < q.1)
      (List.insertionSort (fun p q : Nat × String => p.1 ≤ q.1) σ.fin) := by
    have hne : List.Pairwise (fun p q : Nat × String => p.1 ≠ q.1)
        (List.insertionSort (fun p q : Nat × String => p.1 ≤ q.1) σ.fin) := by
      have h3 : List.Pairwise Ne ((List.insertionSort
          (fun p q : Nat × String => p.1 ≤ q.1) σ.fin).map Prod.fst) := hnodupfst
      rwa [List.pairwise_map] at h3
    exact (List.Pairwise.and hsort hne).imp
      (fun hab => Nat.lt_of_le_of_ne hab.1 hab.2)
  have hkey : List.insertionSort (fun p q : Nat × String => p.1 ≤ q.1) σ.fin =
      dispatchTarget fetch domains := by
    haveI : IsAntisymm (Nat × String) (fun p q : Nat × String => p.1 < q.1) :=
      ⟨fun a b h1 h2 => absurd h2 (Nat.lt_asymm h1)⟩
    exact List.eq_of_perm_of_sorted hpermS hsortPW htargetPW
  unfold dispatchOutput
  rw [hkey]
  unfold dispatchTarget
  rw [List.map_map]
  have h4 : (Prod.snd ∘ fun j : Nat × String => (j.1, scrape_website fetch j.2)) =
      (scrape_website fetch) ∘ Prod.snd := rfl
  rw [h4, ← List.map_map, List.enum_map_snd]

/-- C9 (spec-modelled dispatcher): every reachable pool state has at most
`conc` in-flight jobs, every final state's re-sorted output equals the
input-ordered verdict list — so it depends only on the input contents — and
in particular two complete runs at any two concurrency levels produce the
same output sequence. -/
theorem C9_theorem (fetch : String → FetchOutcome) (domains : List String)
    (conc : Nat) (σ : DState) (h : DReach fetch conc domains σ) :
    σ.inflight.length ≤ conc ∧
    (isFinal σ → dispatchOutput σ = domains.map (scrape_website fetch)) ∧
    (∀ conc' σ', DReach fetch conc' domains σ' → isFinal σ → isFinal σ' →
      dispatchOutput σ = dispatchOutput σ') := by
  refine ⟨dreach_inflight_le fetch conc domains σ h,
    dreach_final_output fetch conc domains σ h, ?_⟩
  intro conc' σ' h' hfin hfin'
  rw [dreach_final_output fetch conc domains σ h hfin,
    dreach_final_output fetch conc' domains σ' h' hfin']

/-- Witness for C9: a complete two-step run (launch, then finish) of a
single-domain list at concurrency 1, with its output. -/
theorem C9_witness :
    DReach fetchConn 1 ["a"] ⟨[], [], [(0, scrape_website fetchConn "a")]⟩ ∧
    dispatchOutput ⟨[], [], [(0, scrape_website fetchConn "a")]⟩ =
      ["a"].map (scrape_website fetchConn) := by
  have h1 : DStep fetchConn 1 ⟨[(0, "a")], [], []⟩ ⟨[], [(0, "a")], []⟩ :=
    @DStep.launch fetchConn 1 (0, "a") [] [] [] (by decide)
  have h2 : DStep fetchConn 1 ⟨[], [(0, "a")], []⟩
      ⟨[], [], [(0, scrape_website fetchConn "a")]⟩ :=
    @DStep.finish fetchConn 1 [] [] (0, "a") [] []
  have hreach : DReach fetchConn 1 ["a"] ⟨[], [], [(0, scrape_website fetchConn "a")]⟩ :=
    Relation.ReflTransGen.tail (Relation.ReflTransGen.tail Relation.ReflTransGen.refl h1) h2
  exact ⟨hreach, (C9_theorem fetchConn ["a"] 1 _ hreach).2.1 ⟨rfl, rfl⟩⟩
